import Mathlib

/-!
Verification of the symlink-manager reconciliation core.

Shallow embedding of the Python sources:
  * `symlink_manager/database/repository.py` (entity store / handlers)
  * `symlink_manager/scanners/library_scanner.py` and `torrent_scanner.py`
  * `symlink_manager/utils/utils.py` (`get_unique_filename`)
  * `symlink_manager/services/parser.py` and `resolver.py`

Python `None`-able attributes are modelled with `Option`; Python
truthiness (`if x:`) is modelled explicitly where the code relies on it
(empty string, zero, empty list and `None` are falsy).  Code raising
exceptions is modelled with `Option`/`Except`.  The external free-form
title parser (PTT) and the IMDb search service are black boxes per spec
paragraph 6; their outputs are parameters of the embedding.
-/

namespace SymlinkManager

/-- Python `\s` (ASCII part): the whitespace class used by `re`. -/
def isPySpace (c : Char) : Bool :=
  c = ' ' || c = '\t' || c = '\n' || c = '\r' || c = '\x0b' || c = '\x0c'

/-- Truthiness of an optional string (`None` and `""` are falsy). -/
def pyTruthyStr (o : Option String) : Bool :=
  match o with
  | none => false
  | some s => s ≠ ""

/-- Truthiness of an optional int (`None` and `0` are falsy). -/
def pyTruthyNat (o : Option Nat) : Bool :=
  match o with
  | none => false
  | some n => n ≠ 0

/-- One attribute under the fill-only rule of `EntityHandler.update`:
`if current_value is None: setattr(entity, key, value)` specialised to a
single column, where `new = none` means the key was not in `kwargs`. -/
def fillField (cur new : Option α) : Option α :=
  match cur with
  | some v => some v
  | none => new

/-!
## `EntityHandler.update` (repository.py lines 87-104)

An entity is modelled as its attribute dictionary: a map from attribute
names to optional values (`getattr(entity, key, None)`).  `kwargs` is the
list of name/value pairs of the call, iterated in order.
-/

/-- Attribute dictionary of an entity. -/
def AttrMap (V : Type) : Type := String → Option V

/-- `EntityHandler.update`: for each `(key, value)` in `kwargs`, set the
attribute only when its current value is `None`. -/
def EntityHandler.update (e : AttrMap V) (kwargs : List (String × V)) : AttrMap V :=
  kwargs.foldl
    (fun m kv =>
      match m kv.1 with
      | none => fun k => if k = kv.1 then some kv.2 else m k
      | some _ => m)
    e

/-!
## Entity store state (repository.py)

`MediaFile.id` is `none` before the first flush (SQLAlchemy assigns the
autoincrement key on insert).  The `media` table is represented by the
list of existing Media ids: a relationship attribute such as
`media_file.media` is truthy exactly when the foreign key is set and the
referenced row exists.
-/

structure MediaFile where
  id : Option Nat
  media_id : Option String
  torrent_id : Option Nat
  symlink_path : Option String
  target_path : Option String
  file_size : Option Nat
  season : Option String
  episode : Option String
deriving DecidableEq

structure Torrent where
  id : Nat
  torrent_title : Option String
  torrent_year : Option Nat
  media_id : Option String
  path : String
deriving DecidableEq

structure DB where
  media : List String
  torrents : List Torrent
  files : List MediaFile
  next_file_id : Nat
deriving DecidableEq

/-- `kwargs` of an update call on a `MediaFile` (a field is `none` when
the key is absent from the call). -/
structure MediaFileKwargs where
  media_id : Option String
  torrent_id : Option Nat
  symlink_path : Option String
  target_path : Option String
  file_size : Option Nat
  season : Option String
  episode : Option String
deriving DecidableEq

/-- `kwargs` of an update call on a `Torrent`. -/
structure TorrentKwargs where
  torrent_title : Option String
  torrent_year : Option Nat
  media_id : Option String
deriving DecidableEq

/-- Empty `kwargs` for a `MediaFile` update. -/
def MediaFileKwargs.empty : MediaFileKwargs :=
  ⟨none, none, none, none, none, none, none⟩

/-- The attribute part of `EntityHandler.update` applied to a
`MediaFile`: every column moves only from unset to set. -/
def MediaFile.fill (f : MediaFile) (kw : MediaFileKwargs) : MediaFile :=
  ⟨f.id,
   fillField f.media_id kw.media_id,
   fillField f.torrent_id kw.torrent_id,
   fillField f.symlink_path kw.symlink_path,
   fillField f.target_path kw.target_path,
   fillField f.file_size kw.file_size,
   fillField f.season kw.season,
   fillField f.episode kw.episode⟩

/-- The attribute part of `EntityHandler.update` applied to a `Torrent`. -/
def Torrent.fill (t : Torrent) (kw : TorrentKwargs) : Torrent :=
  ⟨t.id,
   fillField t.torrent_title kw.torrent_title,
   fillField t.torrent_year kw.torrent_year,
   fillField t.media_id kw.media_id,
   t.path⟩

/-- The `Torrent` row a `MediaFile`'s `torrent` relationship resolves to. -/
def DB.torrentOf (db : DB) (f : MediaFile) : Option Torrent :=
  match f.torrent_id with
  | some tid => db.torrents.find? (fun t => t.id == tid)
  | none => none

/-- Truthiness of a `MediaFile`'s `media` relationship: the foreign key is
set and the Media row exists. -/
def DB.mediaOf (db : DB) (f : MediaFile) : Option String :=
  match f.media_id with
  | some m => if db.media.contains m then some m else none
  | none => none

/-- `MediaFileHandler.get_by_path` (repository.py lines 192-209): the
first file whose `target_path` or `symlink_path` equals the query. -/
def MediaFileHandler.get_by_path (db : DB) (p : String) : Option MediaFile :=
  db.files.find? (fun f => f.target_path == some p || f.symlink_path == some p)

/-- `MediaFileHandler.update` (repository.py lines 211-222): the fill-only
attribute update followed by the side effect
`if entity.torrent and entity.media: entity.torrent.media_id = entity.media_id`.
The assignment onto the parent torrent is unconditional in the source.
The updated entity is addressed by its primary key `fid`. -/
def MediaFileHandler.update (db : DB) (fid : Option Nat) (kw : MediaFileKwargs) : DB :=
  match db.files.find? (fun f => f.id == fid) with
  | none => db
  | some f =>
    let f' := f.fill kw
    let db1 : DB :=
      ⟨db.media,
       db.torrents,
       db.files.map (fun g => if g.id == fid then f' else g),
       db.next_file_id⟩
    match db1.torrentOf f', db1.mediaOf f' with
    | some t, some _ =>
      ⟨db1.media,
       db1.torrents.map (fun u =>
         if u.id == t.id then ⟨u.id, u.torrent_title, u.torrent_year, f'.media_id, u.path⟩ else u),
       db1.files,
       db1.next_file_id⟩
    | _, _ => db1

/-- `TorrentHandler._propagate_media_id_to_files` (repository.py lines
272-283): `if not torrent.media_id: return`, then
`for media_file in torrent.files: media_file.media_id = torrent.media_id`.
The assignment onto each child is unconditional in the source. -/
def TorrentHandler._propagate_media_id_to_files (db : DB) (t : Torrent) : DB :=
  if pyTruthyStr t.media_id = false then db
  else
    ⟨db.media,
     db.torrents,
     db.files.map (fun f =>
       if f.torrent_id == some t.id then
         ⟨f.id, t.media_id, f.torrent_id, f.symlink_path, f.target_path,
          f.file_size, f.season, f.episode⟩
       else f),
     db.next_file_id⟩

/-- `TorrentHandler.update` (repository.py lines 249-270): remember
`old_media_id`, apply the fill-only attribute update, and when the Media
reference moved from `None` to a value, propagate it to the child files. -/
def TorrentHandler.update (db : DB) (tid : Nat) (kw : TorrentKwargs) : DB :=
  match db.torrents.find? (fun t => t.id == tid) with
  | none => db
  | some t =>
    let old_media_id := t.media_id
    let t' := t.fill kw
    let db1 : DB :=
      ⟨db.media,
       db.torrents.map (fun u => if u.id == tid then t' else u),
       db.files,
       db.next_file_id⟩
    if old_media_id = none ∧ t'.media_id ≠ none then
      TorrentHandler._propagate_media_id_to_files db1 t'
    else db1

/-- `_extract_attributes` (repository.py lines 116-136) for a `MediaFile`:
the non-`None` model attributes of the incoming entity, as the `kwargs` of
the merging update (`id` is `None` before the first flush and SQLAlchemy
internals are excluded). -/
def MediaFileHandler._extract_attributes (e : MediaFile) : MediaFileKwargs :=
  ⟨e.media_id, e.torrent_id, e.symlink_path, e.target_path,
   e.file_size, e.season, e.episode⟩

/-- The lookup key of `MediaFileHandler.add`:
`entity.symlink_path or entity.target_path` (Python `or`: the symlink
path when truthy, else the target path), passed through
`get_by_path`'s `str(path)` (so `str(None)` is the string `"None"`). -/
def MediaFileHandler.lookupKey (e : MediaFile) : String :=
  let key : Option String :=
    match e.symlink_path with
    | some s => if s = "" then e.target_path else some s
    | none => e.target_path
  match key with
  | some s => s
  | none => "None"

/-- `MediaFileHandler.add` (repository.py lines 182-190): look up the
entity's key path; merge into the existing record via `self.update`
(fill-only, with the incoming entity's non-`None` attributes) when
found, else insert with the next autoincrement id.  Returns the new
store and the record the call returns. -/
def MediaFileHandler.add (db : DB) (e : MediaFile) : DB × MediaFile :=
  match MediaFileHandler.get_by_path db (MediaFileHandler.lookupKey e) with
  | some ex =>
    let db' := MediaFileHandler.update db ex.id (MediaFileHandler._extract_attributes e)
    (db', ex.fill (MediaFileHandler._extract_attributes e))
  | none =>
    let e' : MediaFile :=
      ⟨some db.next_file_id, e.media_id, e.torrent_id, e.symlink_path,
       e.target_path, e.file_size, e.season, e.episode⟩
    (⟨db.media, db.torrents, db.files ++ [e'], db.next_file_id + 1⟩, e')

/-!
## `Parser.extract_media_episode` (parser.py lines 126-146)

`re.search(r"[sS](\d+)[eE](\d+)", str(media_file))`: leftmost match of an
`s`/`S`, a non-empty digit run, an `e`/`E`, a non-empty digit run; the two
digit groups are returned as strings.  Both `\d+` are greedy and followed
by a non-digit requirement, so maximal munch is exact.
-/

/-- Attempt the episode pattern at the head of the character list. -/
def matchEpAt (cs : List Char) : Option (String × String) :=
  match cs with
  | [] => none
  | c :: rest =>
    if c = 's' ∨ c = 'S' then
      match rest.takeWhile Char.isDigit, rest.dropWhile Char.isDigit with
      | [], _ => none
      | ds, e :: r3 =>
        if e = 'e' ∨ e = 'E' then
          match r3.takeWhile Char.isDigit with
          | [] => none
          | es => some (⟨ds⟩, ⟨es⟩)
        else none
      | _, [] => none
    else none

/-- `re.search`: try the pattern at each position, leftmost first. -/
def searchEp : List Char → Option (String × String)
  | [] => none
  | c :: rest =>
    match matchEpAt (c :: rest) with
    | some r => some r
    | none => searchEp rest

/-- `Parser.extract_media_episode`. -/
def extract_media_episode (s : String) : Option String × Option String :=
  match searchEp s.toList with
  | some (se, ep) => (some se, some ep)
  | none => (none, none)

/-!
## `LibraryScanner.index_media` file loop (library_scanner.py lines 174-191)

A discovered file is its path string, whether it is itself a symbolic
link, its link-resolution target and its size.  The loop builds one
`MediaFile` per file.  Note the source line
`target_path = str(file.resolve() if file.is_symlink() else None)`:
for a regular file this is `str(None)`, i.e. the string `"None"`.
-/

structure FsFile where
  path : String
  is_symlink : Bool
  resolve : String
  size : Nat
deriving DecidableEq

/-- The `MediaFile` entities built (and passed to `repo.add`) by
`LibraryScanner.index_media` for a newly created Media with id
`imdb_id`, one per discovered video file. -/
def LibraryScanner.index_media_files (imdb_id : String) (files : List FsFile) :
    List MediaFile :=
  files.map (fun file =>
    let symlink_path := file.path
    let target_path : String := if file.is_symlink then file.resolve else "None"
    let se := extract_media_episode symlink_path
    ⟨none, some imdb_id, none, some symlink_path, some target_path,
     some file.size, se.1, se.2⟩)

/-!
## `TorrentScanner.index_torrent` file selection (torrent_scanner.py lines 179-202)

A torrent file is its path, its on-disk size, and the `seasons` and
`episodes` lists the external free-form parser returns for its name
(spec paragraph 6: ordered lists, absent modelled as `[]`).
-/

structure TFile where
  path : String
  size : Nat
  seasons : List Nat
  episodes : List Nat
deriving DecidableEq

/-- `Parser.parse_torrent_episode` (parser.py lines 56-79):
`if season and episode: return season[0], episode[0]`, then
`if episode: return None, episode[0]`, else `None, None`
(`season`/`episode` are the PTT lists; list truthiness is non-emptiness). -/
def parse_torrent_episode (f : TFile) : Option Nat × Option Nat :=
  match f.seasons, f.episodes with
  | s :: _, e :: _ => (some s, some e)
  | [], e :: _ => (none, some e)
  | _, [] => (none, none)

/-- The record inserted for one selected torrent file (the arguments of
`MediaFile.create` in `index_torrent`; season and episode are kept as the
parsed values). -/
structure TorrentFileRec where
  torrent_id : Nat
  target_path : String
  file_size : Nat
  season : Option Nat
  episode : Option Nat
deriving DecidableEq

/-- `TorrentScanner.index_torrent`, file-selection part: for `"movie"`,
`max(files, key=size)` (first maximum wins; empty input raises
`ValueError`, modelled as `none`); otherwise, one record per file whose
parsed season and episode are both truthy (`if season and episode:` on
ints — `0` is falsy). -/
def TorrentScanner.index_torrent_files (tid : Nat) (kind : String)
    (files : List TFile) : Option (List TorrentFileRec) :=
  if kind = "movie" then
    match files with
    | [] => none
    | f0 :: rest =>
      let target := rest.foldl (fun acc g => if g.size > acc.size then g else acc) f0
      some [⟨tid, target.path, target.size, none, none⟩]
  else
    some (files.filterMap (fun file =>
      let se := parse_torrent_episode file
      if pyTruthyNat se.1 && pyTruthyNat se.2 then
        some ⟨tid, file.path, file.size, se.1, se.2⟩
      else none))

/-!
## `get_unique_filename` (utils.py lines 5-39)

The filesystem is the list of existing full paths; `directory / name` is
modelled as `dir ++ "/" ++ name`.  `Path.stem`/`Path.suffix` split the
name at its last dot when that dot is strictly inside the name.  The
unbounded `while True` loop is modelled with explicit fuel; the
characterisation theorem shows any returned name is the first free
version number.
-/

/-- Index of the last occurrence of `c` (Python `str.rfind`). -/
def rfindIdx (c : Char) : List Char → Option Nat
  | [] => none
  | x :: xs =>
    match rfindIdx c xs with
    | some i => some (i + 1)
    | none => if x = c then some 0 else none

/-- `Path.stem` and `Path.suffix` of a file name (pathlib: split at the
last dot when `0 < i < len(name) - 1`, else no suffix). -/
def pySplitName (name : String) : String × String :=
  let cs := name.toList
  match rfindIdx '.' cs with
  | some i =>
    if 0 < i ∧ i < cs.length - 1 then (⟨cs.take i⟩, ⟨cs.drop i⟩) else (name, "")
  | none => (name, "")

/-- The versioned candidate name `f"{base_name} - v{version}{extension}"`. -/
def versionedName (stem ext : String) (v : Nat) : String :=
  stem ++ " - v" ++ toString v ++ ext

/-- The `while True` loop of `get_unique_filename`, with fuel. -/
def gufLoop (fs : List String) (dir stem ext : String) : Nat → Nat → Option String
  | _, 0 => none
  | v, fuel + 1 =>
    let new_filename := versionedName stem ext v
    if fs.contains (dir ++ "/" ++ new_filename) then
      gufLoop fs dir stem ext (v + 1) fuel
    else some new_filename

/-- `get_unique_filename` (returning the file name, i.e.
`return_full_path=False`): the exact name when free, else the loop from
version 2. -/
def get_unique_filename (fs : List String) (dir name : String) (fuel : Nat) :
    Option String :=
  if fs.contains (dir ++ "/" ++ name) then
    let se := pySplitName name
    gufLoop fs dir se.1 se.2 2 fuel
  else some name

/-!
## `Parser.parse_media` (parser.py lines 97-124)

The compiled pattern is
`^(?P<title>.*?)\s*\((?P<year>\d{4})\)\s*\{imdb-tt(?P<imdb_id>\d+)\}$`,
run with `re.search` (the `^` anchor pins it to position 0; without
`re.MULTILINE`, `$` matches at the end or just before a final newline).
The non-greedy title is the shortest prefix of non-newline characters
after which the anchored tail matches; every quantifier in the tail is
followed by a character outside its class, so maximal munch is exact.
On success the code returns `title.strip()`, the year and the id.
-/

/-- `\s*` (maximal munch; the following literal is never whitespace). -/
def dropSpaces (cs : List Char) : List Char :=
  cs.dropWhile isPySpace

/-- The tail `\{imdb-tt(\d+)\}$` after the year group: the literal
prefix, a non-empty greedy digit run (maximal munch is exact: `\}` is
not a digit), the closing brace, and the `$` anchor (end of string, or
just before a final newline). -/
def matchBrace (y : String) (cs : List Char) : Option (String × String) :=
  match cs with
  | '\x7b' :: 'i' :: 'm' :: 'd' :: 'b' :: '-' :: 't' :: 't' :: rest =>
    match rest.takeWhile Char.isDigit with
    | [] => none
    | d :: ds =>
      match rest.dropWhile Char.isDigit with
      | '\x7d' :: tl =>
        if tl = [] ∨ tl = ['\n'] then some (y, ⟨d :: ds⟩) else none
      | _ => none
  | _ => none

/-- The anchored tail `\s*\((\d{4})\)\s*\{imdb-tt(\d+)\}$`. -/
def matchTail (cs : List Char) : Option (String × String) :=
  match dropSpaces cs with
  | '(' :: a :: b :: c :: d :: ')' :: rest =>
    if a.isDigit && b.isDigit && c.isDigit && d.isDigit then
      matchBrace ⟨[a, b, c, d]⟩ (dropSpaces rest)
    else none
  | _ => none

/-- The non-greedy `^(?P<title>.*?)` search: try the tail at each title
length, shortest first; the title may not cover a newline (`.`). -/
def scanTitle : List Char → Option (List Char × String × String)
  | [] =>
    match matchTail [] with
    | some yi => some ([], yi.1, yi.2)
    | none => none
  | c :: rest =>
    match matchTail (c :: rest) with
    | some yi => some ([], yi.1, yi.2)
    | none =>
      if c = '\n' then none
      else
        match scanTitle rest with
        | some r => some (c :: r.1, r.2.1, r.2.2)
        | none => none

/-- Python `str.strip()` (on the ASCII whitespace class). -/
def pyStrip (s : String) : String :=
  ⟨((s.toList.dropWhile isPySpace).reverse.dropWhile isPySpace).reverse⟩

/-- The trailing-whitespace trim, used to describe the title group the
non-greedy match captures (the `\s*` after the title absorbs the
whitespace run before the year's parenthesis). -/
def dropTrailingSpaces (cs : List Char) : List Char :=
  (cs.reverse.dropWhile isPySpace).reverse

/-- `Parser.parse_media`: `none` models the `ValueError` raised when the
pattern does not match; on a match, `(title.strip(), year, imdb_id)`. -/
def parse_media (name : String) : Option (String × String × String) :=
  match scanTitle name.toList with
  | some (ttl, y, i) => some (pyStrip ⟨ttl⟩, y, i)
  | none => none

/-!
## `Parser.parse_torrent` and `_determine_media_type` (parser.py lines 28-95)

The PTT result is modelled per spec paragraph 6: `title` (string or
absent), `year`, `seasons` and `episodes`/`episode` (ordered lists,
absent modelled as `[]`).  `_determine_media_type` reads the keys
`"seasons"` and `"episode"`.
-/

structure PTTResult where
  title : Option String
  year : Option Nat
  seasons : List Nat
  episodes : List Nat
  episode : List Nat
deriving DecidableEq

/-- `Parser._determine_media_type`:
`"show" if bool(parsed_data.get("seasons") or parsed_data.get("episode")) else "movie"`. -/
def determine_media_type (p : PTTResult) : String :=
  if p.seasons ≠ [] ∨ p.episode ≠ [] then "show" else "movie"

/-- `Parser.parse_torrent` on the parsed result of the torrent name:
`ValueError` (modelled as `Except.error`) iff the extracted title is
falsy, else `{title, year, kind}`. -/
def parse_torrent (p : PTTResult) : Except String (String × Option Nat × String) :=
  match p.title with
  | none => Except.error "Missing title in parsed result"
  | some t =>
    if t = "" then Except.error "Missing title in parsed result"
    else Except.ok (t, p.year, determine_media_type p)

/-!
## `Resolver.get_imdb_id` (resolver.py lines 27-64)

The external search service is a parameter: `none` models
`ia.search_movie` raising (wrapped into `RuntimeError`), `some results`
the returned ordered list.  Validation happens before the service call.
-/

structure SearchResult where
  kind : Option String
  movieID : String
deriving DecidableEq

def SHOW_TYPES : List String := ["tv series", "tv mini series"]

def VALID_TYPES : List String := ["movie", "show"]

inductive ResolverOutcome where
  | valueError (msg : String)
  | runtimeError (msg : String)
  | ok (id : Option String)
deriving DecidableEq

/-- The result loop: first result whose classification matches `kind`. -/
def resolverLoop (kind : String) : List SearchResult → Option String
  | [] => none
  | r :: rest =>
    let result_type :=
      if (match r.kind with
          | some k => SHOW_TYPES.contains k
          | none => false) then "show" else "movie"
    if result_type = kind then some r.movieID else resolverLoop kind rest

/-- `Resolver.get_imdb_id`: empty-title and invalid-kind `ValueError`s
are raised before the search service is consulted (the `search` oracle
is only applied, to `f"{title} {year if year else ''}"`, after both
checks pass; `search q = none` models `ia.search_movie` raising). -/
def get_imdb_id (title : String) (year : Option String) (kind : String)
    (search : String → Option (List SearchResult)) : ResolverOutcome :=
  if title = "" then ResolverOutcome.valueError "Title cannot be empty"
  else if VALID_TYPES.contains kind = false then
    ResolverOutcome.valueError "Invalid media type"
  else
    let search_str :=
      title ++ " " ++
        (match year with
         | some y => if y = "" then "" else y
         | none => "")
    match search search_str with
    | none => ResolverOutcome.runtimeError "IMDb API search failed"
    | some results => ResolverOutcome.ok (resolverLoop kind results)

/-!
## Shared lemmas
-/

theorem MediaFileHandler.update_files (db : DB) (fid : Option Nat)
    (kw : MediaFileKwargs) (f : MediaFile)
    (h : db.files.find? (fun g => g.id == fid) = some f) :
    (MediaFileHandler.update db fid kw).files =
      db.files.map (fun g => if g.id == fid then f.fill kw else g) := by
  unfold MediaFileHandler.update
  rw [h]
  dsimp only
  split <;> rfl

theorem MediaFileHandler.update_files_length (db : DB) (fid : Option Nat)
    (kw : MediaFileKwargs) :
    (MediaFileHandler.update db fid kw).files.length = db.files.length := by
  unfold MediaFileHandler.update
  split
  · rfl
  · dsimp only
    split <;> simp [List.length_map]

/-!
## Claims
-/

/-- C1: Fill-only update.  First part: for every entity (modelled as its
attribute dictionary) and every attribute, `EntityHandler.update` leaves
every already-set attribute unchanged — it sets an attribute only when
the current value is `None`.  Second part: updating a `MediaFile` with an
unset season with `{season: "01"}` through the store sets it to `"01"`,
and a subsequent update with `{season: "02"}` leaves it at `"01"`. -/
theorem C1_fill_only_update :
    (∀ (V : Type) (e : AttrMap V) (kwargs : List (String × V)) (k : String),
        e k ≠ none → EntityHandler.update e kwargs k = e k) ∧
    (∀ (f : MediaFile) (db : DB), db.files = [f] → f.id = some 1 → f.season = none →
        (MediaFileHandler.update db (some 1)
            ⟨none, none, none, none, none, some "01", none⟩).files.map MediaFile.season
          = [some "01"] ∧
        (MediaFileHandler.update
            (MediaFileHandler.update db (some 1)
              ⟨none, none, none, none, none, some "01", none⟩)
            (some 1)
            ⟨none, none, none, none, none, some "02", none⟩).files.map MediaFile.season
          = [some "01"]) := by
  constructor
  · intro V e kwargs k hk
    induction kwargs generalizing e with
    | nil => rfl
    | cons kv rest ih =>
      cases hm : e kv.1 with
      | none =>
        have hkk : ¬ k = kv.1 := by
          intro h
          exact hk (h ▸ hm)
        have hstep :
            (EntityHandler.update e (kv :: rest) : AttrMap V)
              = EntityHandler.update (fun k' => if k' = kv.1 then some kv.2 else e k') rest := by
          simp only [EntityHandler.update, List.foldl_cons, hm]
        rw [congrFun hstep k, ih _ (by simpa [hkk] using hk)]
        simp [hkk]
      | some v =>
        have hstep :
            (EntityHandler.update e (kv :: rest) : AttrMap V)
              = EntityHandler.update e rest := by
          simp only [EntityHandler.update, List.foldl_cons, hm]
        rw [congrFun hstep k, ih e hk]
  · intro f db hdb hid hs
    have hfind : db.files.find? (fun g => g.id == some 1) = some f := by
      rw [hdb]
      simp [List.find?, hid]
    have h1 :=
      MediaFileHandler.update_files db (some 1)
        ⟨none, none, none, none, none, some "01", none⟩ f hfind
    have hfiles1 :
        (MediaFileHandler.update db (some 1)
          ⟨none, none, none, none, none, some "01", none⟩).files
          = [f.fill ⟨none, none, none, none, none, some "01", none⟩] := by
      rw [h1, hdb]
      simp [hid]
    have hid' : (f.fill ⟨none, none, none, none, none, some "01", none⟩).id = some 1 := hid
    have hfind2 :
        (MediaFileHandler.update db (some 1)
          ⟨none, none, none, none, none, some "01", none⟩).files.find?
            (fun g => g.id == some 1)
          = some (f.fill ⟨none, none, none, none, none, some "01", none⟩) := by
      rw [hfiles1]
      simp [List.find?, hid']
    have h2 :=
      MediaFileHandler.update_files _ (some 1)
        ⟨none, none, none, none, none, some "02", none⟩ _ hfind2
    have hseas : (f.fill ⟨none, none, none, none, none, some "01", none⟩).season = some "01" := by
      show fillField f.season (some "01") = some "01"
      rw [hs]
      rfl
    constructor
    · rw [hfiles1]
      simp [hseas]
    · rw [h2, hfiles1]
      simp [hid, hs, MediaFile.fill, fillField]

/-- C2: the fan-out on Torrent update, as claimed, is violated by the
code: `_propagate_media_id_to_files` assigns the torrent's new Media
reference to every child `MediaFile` unconditionally, so a child whose
Media reference was already set (`"M2"` below) does not retain it.  This
theorem evaluates the store at the failing input: torrent `1` (Media
reference unset) has children with references `"M2"` and unset; updating
the torrent with `media_id="M1"` rewrites both children to `"M1"`. -/
theorem C2_torrent_fanout_overwrites_set_child :
    (TorrentHandler.update
        ⟨["M1", "M2"],
         [⟨1, none, none, none, "/t"⟩],
         [⟨some 1, some "M2", some 1, none, some "a", some 1, none, none⟩,
          ⟨some 2, none, some 1, none, some "b", some 1, none, none⟩],
         3⟩
        1 ⟨none, none, some "M1"⟩).files.map MediaFile.media_id
      = [some "M1", some "M1"] ∧
    (TorrentHandler.update
        ⟨["M1", "M2"],
         [⟨1, none, none, none, "/t"⟩],
         [⟨some 1, some "M2", some 1, none, some "a", some 1, none, none⟩,
          ⟨some 2, none, some 1, none, some "b", some 1, none, none⟩],
         3⟩
        1 ⟨none, none, some "M1"⟩).torrents.map Torrent.media_id
      = [some "M1"] := by
  constructor <;> rfl

/-- C3: the write-once rule for `Torrent.media` under the MediaFile
update side effect is violated by the code:
`MediaFileHandler.update` executes
`entity.torrent.media_id = entity.media_id` without checking whether the
torrent's reference is set.  This theorem evaluates the store at the
failing input: file `1` is linked to torrent `1` (whose Media reference
is `"A"`) and to Media `"B"`; any update call on the file (here with
empty kwargs) rewrites the torrent's reference from `"A"` to `"B"`. -/
theorem C3_mediafile_update_overwrites_torrent_media :
    (MediaFileHandler.update
        ⟨["A", "B"],
         [⟨1, none, none, some "A", "/t"⟩],
         [⟨some 1, some "B", some 1, none, some "a", some 1, none, none⟩],
         2⟩
        (some 1) MediaFileKwargs.empty).torrents.map Torrent.media_id
      = [some "B"] := by
  rfl

/-- Witness for C1 at concrete inputs: an already-set attribute survives
an update naming it, and the season scenario on a one-file store. -/
theorem C1_fill_only_update_witness :
    EntityHandler.update (fun k => if k = "season" then some "09" else none)
        [("season", "01")] "season"
      = (fun k => if k = "season" then some "09" else none) "season" ∧
    ((MediaFileHandler.update
          ⟨[], [], [⟨some 1, none, none, none, some "t", some 1, none, none⟩], 2⟩
          (some 1)
          ⟨none, none, none, none, none, some "01", none⟩).files.map MediaFile.season
        = [some "01"] ∧
      (MediaFileHandler.update
          (MediaFileHandler.update
            ⟨[], [], [⟨some 1, none, none, none, some "t", some 1, none, none⟩], 2⟩
            (some 1)
            ⟨none, none, none, none, none, some "01", none⟩)
          (some 1)
          ⟨none, none, none, none, none, some "02", none⟩).files.map MediaFile.season
        = [some "01"]) :=
  ⟨C1_fill_only_update.1 String _ [("season", "01")] "season" (by simp),
   C1_fill_only_update.2 ⟨some 1, none, none, none, some "t", some 1, none, none⟩
     ⟨[], [], [⟨some 1, none, none, none, some "t", some 1, none, none⟩], 2⟩
     rfl rfl rfl⟩

/-- C4, counterexample: the claimed path-deduplication invariant fails.
The store holds one record with symlink path `"s1"` and target path
`"t"`; inserting an entity with symlink path `"s2"` and the same target
path `"t"` does not merge (the lookup key is the symlink path alone), so
a second record with target path `"t"` is created. -/
theorem C4_counterexample_duplicate_target_path :
    ((MediaFileHandler.add
        ⟨["M"], [], [⟨some 1, none, none, some "s1", some "t", some 5, none, none⟩], 2⟩
        ⟨none, none, none, some "s2", some "t", some 7, none, none⟩).1.files.countP
      (fun f => f.target_path == some "t") = 2) ∧
    (([⟨some 1, none, none, some "s1", some "t", some 5, none, none⟩] :
        List MediaFile).countP (fun f => f.target_path == some "t") = 1) := by
  constructor <;> rfl

/-- C4, amended: deduplication happens on the incoming entity's lookup
key — its symlink path when truthy, else its target path (stringified,
so both unset gives `"None"`).  When that key equals the target path or
symlink path of an existing record, the insert merges into the first
such record by a fill-only update of the incoming entity's non-null
attributes and creates no new record. -/
theorem C4_upsert_dedup_by_lookup_key (db : DB) (e : MediaFile)
    (h : ∃ f ∈ db.files,
          f.target_path = some (MediaFileHandler.lookupKey e) ∨
          f.symlink_path = some (MediaFileHandler.lookupKey e)) :
    (MediaFileHandler.add db e).1.files.length = db.files.length ∧
    ∃ ex, MediaFileHandler.get_by_path db (MediaFileHandler.lookupKey e) = some ex ∧
      (MediaFileHandler.add db e).2 = ex.fill (MediaFileHandler._extract_attributes e) := by
  have hsome : (MediaFileHandler.get_by_path db (MediaFileHandler.lookupKey e)).isSome := by
    unfold MediaFileHandler.get_by_path
    rw [List.find?_isSome]
    obtain ⟨f, hf, hor⟩ := h
    refine ⟨f, hf, ?_⟩
    cases hor with
    | inl h1 => simp [h1]
    | inr h1 => simp [h1]
  obtain ⟨ex, hex⟩ := Option.isSome_iff_exists.mp hsome
  refine ⟨?_, ex, hex, ?_⟩
  · unfold MediaFileHandler.add
    rw [hex]
    exact MediaFileHandler.update_files_length db ex.id
      (MediaFileHandler._extract_attributes e)
  · unfold MediaFileHandler.add
    rw [hex]

/-- Witness for C4 (amended): inserting an entity whose symlink path
`"s1"` matches the existing record's symlink path merges instead of
inserting. -/
theorem C4_upsert_dedup_by_lookup_key_witness :
    (MediaFileHandler.add
        ⟨["M"], [], [⟨some 1, none, none, some "s1", some "t", some 5, none, none⟩], 2⟩
        ⟨none, some "M", none, some "s1", none, some 7, none, none⟩).1.files.length
      = ([⟨some 1, none, none, some "s1", some "t", some 5, none, none⟩] :
          List MediaFile).length ∧
    ∃ ex,
      MediaFileHandler.get_by_path
          ⟨["M"], [], [⟨some 1, none, none, some "s1", some "t", some 5, none, none⟩], 2⟩
          (MediaFileHandler.lookupKey ⟨none, some "M", none, some "s1", none, some 7, none, none⟩)
        = some ex ∧
      (MediaFileHandler.add
          ⟨["M"], [], [⟨some 1, none, none, some "s1", some "t", some 5, none, none⟩], 2⟩
          ⟨none, some "M", none, some "s1", none, some 7, none, none⟩).2
        = ex.fill (MediaFileHandler._extract_attributes
            ⟨none, some "M", none, some "s1", none, some 7, none, none⟩) :=
  C4_upsert_dedup_by_lookup_key
    ⟨["M"], [], [⟨some 1, none, none, some "s1", some "t", some 5, none, none⟩], 2⟩
    ⟨none, some "M", none, some "s1", none, some 7, none, none⟩
    ⟨⟨some 1, none, none, some "s1", some "t", some 5, none, none⟩,
      by decide, Or.inr (by decide)⟩

/-- C5: file registration by `LibraryScanner.index_media`, evaluated at
a two-file input.  For the symbolic link the claim holds (symlink path =
discovered path, target path = resolution target, size from the
filesystem, season/episode from the library extractor); for the regular
file the source's `str(file.resolve() if file.is_symlink() else None)`
stores the string `"None"` as the target path instead of leaving it
unset. -/
theorem C5_index_media_files_eval :
    LibraryScanner.index_media_files "0133093"
        [⟨"/library/movies/M (1999)/M (1999).mkv", false, "", 1500⟩,
         ⟨"/library/shows/S (2020)/S (2020) - s01e02.mkv", true,
          "/torrents/S/s01e02.mkv", 700⟩]
      = [⟨none, some "0133093", none,
          some "/library/movies/M (1999)/M (1999).mkv", some "None",
          some 1500, none, none⟩,
         ⟨none, some "0133093", none,
          some "/library/shows/S (2020)/S (2020) - s01e02.mkv",
          some "/torrents/S/s01e02.mkv", some 700, some "01", some "02"⟩] := by
  rfl

/-- C7, counterexample: a torrent file from which the external parser
extracted season `0` and episode `1` (both present, so "both a season
and an episode were extracted") yields no inserted `MediaFile` for kind
`"show"` — the source's `if season and episode:` treats the int `0` as
falsy. -/
theorem C7_counterexample_season_zero_dropped :
    TorrentScanner.index_torrent_files 7 "show" [⟨"f1", 100, [0], [1]⟩] = some [] ∧
    parse_torrent_episode ⟨"f1", 100, [0], [1]⟩ = (some 0, some 1) := by
  constructor <;> rfl

theorem foldl_size_max_spec (rest : List TFile) (f0 : TFile) :
    (rest.foldl (fun acc g => if g.size > acc.size then g else acc) f0) ∈ f0 :: rest ∧
    ∀ g ∈ f0 :: rest,
      g.size ≤ (rest.foldl (fun acc g => if g.size > acc.size then g else acc) f0).size := by
  induction rest generalizing f0 with
  | nil =>
    refine ⟨List.mem_singleton.mpr rfl, ?_⟩
    intro g hg
    rw [List.mem_singleton.mp hg]
    exact Nat.le_refl _
  | cons b rest ih =>
    obtain ⟨hmem, hmax⟩ := ih (if b.size > f0.size then b else f0)
    have hstep : (if b.size > f0.size then b else f0) ∈ f0 :: b :: rest := by
      by_cases hb : b.size > f0.size <;> simp [hb]
    constructor
    · rcases List.mem_cons.mp hmem with h1 | h1
      · rw [List.foldl_cons, h1]
        exact hstep
      · exact List.mem_cons_of_mem _ (List.mem_cons_of_mem _ h1)
    · intro g hg
      rw [List.foldl_cons]
      rcases List.mem_cons.mp hg with h1 | h1
      · subst h1
        calc g.size ≤ (if b.size > g.size then b else g).size := by
              by_cases hb : b.size > g.size <;> simp [hb]
              exact Nat.le_of_lt hb
          _ ≤ _ := hmax _ (List.mem_cons_self _ _)
      · rcases List.mem_cons.mp h1 with h2 | h2
        · subst h2
          calc g.size ≤ (if g.size > f0.size then g else f0).size := by
                by_cases hb : g.size > f0.size <;> simp [hb]
                exact Nat.le_of_not_lt hb
            _ ≤ _ := hmax _ (List.mem_cons_self _ _)
        · exact hmax _ (List.mem_cons_of_mem _ h2)

theorem filterMap_if_spec (p : α → Bool) (g : α → β) (l : List α) :
    (l.filterMap (fun a => if p a then some (g a) else none)).length = l.countP p ∧
    (∀ a ∈ l, p a → g a ∈ l.filterMap (fun a => if p a then some (g a) else none)) ∧
    (∀ b ∈ l.filterMap (fun a => if p a then some (g a) else none),
        ∃ a ∈ l, p a ∧ b = g a) := by
  refine ⟨?_, ?_, ?_⟩
  · induction l with
    | nil => rfl
    | cons a l ih =>
      by_cases h : p a <;>
        simp [List.filterMap_cons, h, ih, List.countP_cons]
  · intro a ha hp
    exact List.mem_filterMap.mpr ⟨a, ha, by simp [hp]⟩
  · intro b hb
    obtain ⟨a, ha, hfa⟩ := List.mem_filterMap.mp hb
    by_cases h : p a
    · rw [if_pos h] at hfa
      exact ⟨a, ha, h, (Option.some_inj.mp hfa).symm⟩
    · rw [if_neg h] at hfa
      cases hfa

/-- C7, amended: `index_torrent` for kind `"movie"` on a non-empty file
list inserts exactly one `MediaFile`, a file of maximal size (the
100/200/50 scenario selects the 200-byte file); for kind `"show"` it
inserts a record exactly for those files whose extracted season and
episode are both truthy in Python's sense (non-`None` and non-zero) —
files whose extraction returned `None` or `0` are silently dropped. -/
theorem C7_index_torrent_selection :
    (∀ (tid : Nat) (files : List TFile), files ≠ [] →
        ∃ fmax ∈ files, (∀ g ∈ files, g.size ≤ fmax.size) ∧
          TorrentScanner.index_torrent_files tid "movie" files
            = some [⟨tid, fmax.path, fmax.size, none, none⟩]) ∧
    (∀ (tid : Nat) (files : List TFile), ∃ l,
        TorrentScanner.index_torrent_files tid "show" files = some l ∧
        l.length = files.countP (fun f =>
          pyTruthyNat (parse_torrent_episode f).1 && pyTruthyNat (parse_torrent_episode f).2) ∧
        (∀ f ∈ files,
          pyTruthyNat (parse_torrent_episode f).1 && pyTruthyNat (parse_torrent_episode f).2 →
          (⟨tid, f.path, f.size, (parse_torrent_episode f).1,
            (parse_torrent_episode f).2⟩ : TorrentFileRec) ∈ l) ∧
        (∀ r ∈ l, ∃ f ∈ files,
          (pyTruthyNat (parse_torrent_episode f).1
            && pyTruthyNat (parse_torrent_episode f).2) = true ∧
          r = ⟨tid, f.path, f.size, (parse_torrent_episode f).1,
                (parse_torrent_episode f).2⟩)) ∧
    TorrentScanner.index_torrent_files 1 "movie"
        [⟨"a", 100, [], []⟩, ⟨"b", 200, [], []⟩, ⟨"c", 50, [], []⟩]
      = some [⟨1, "b", 200, none, none⟩] := by
  refine ⟨?_, ?_, by rfl⟩
  · intro tid files hne
    match files with
    | [] => exact absurd rfl hne
    | f0 :: rest =>
      obtain ⟨hmem, hmax⟩ := foldl_size_max_spec rest f0
      exact ⟨_, hmem, hmax, rfl⟩
  · intro tid files
    obtain ⟨hlen, hfwd, hbwd⟩ :=
      filterMap_if_spec
        (fun f => pyTruthyNat (parse_torrent_episode f).1
            && pyTruthyNat (parse_torrent_episode f).2)
        (fun f => (⟨tid, f.path, f.size, (parse_torrent_episode f).1,
            (parse_torrent_episode f).2⟩ : TorrentFileRec))
        files
    refine ⟨_, ?_, hlen, hfwd, hbwd⟩
    rfl

/-- Witness for C7 (amended) at concrete inputs: the movie branch on the
100/200/50 files, and the show branch on a mixed file list. -/
theorem C7_index_torrent_selection_witness :
    (∃ fmax ∈ ([⟨"a", 100, [], []⟩, ⟨"b", 200, [], []⟩, ⟨"c", 50, [], []⟩] : List TFile),
      (∀ g ∈ ([⟨"a", 100, [], []⟩, ⟨"b", 200, [], []⟩, ⟨"c", 50, [], []⟩] : List TFile),
          g.size ≤ fmax.size) ∧
      TorrentScanner.index_torrent_files 9 "movie"
          [⟨"a", 100, [], []⟩, ⟨"b", 200, [], []⟩, ⟨"c", 50, [], []⟩]
        = some [⟨9, fmax.path, fmax.size, none, none⟩]) ∧
    ∃ l, TorrentScanner.index_torrent_files 9 "show"
          [⟨"a", 100, [2], [3]⟩, ⟨"b", 200, [], []⟩] = some l ∧
      l.length = 1 :=
  ⟨C7_index_torrent_selection.1 9
      [⟨"a", 100, [], []⟩, ⟨"b", 200, [], []⟩, ⟨"c", 50, [], []⟩] (by decide),
   match C7_index_torrent_selection.2.1 9 [⟨"a", 100, [2], [3]⟩, ⟨"b", 200, [], []⟩] with
   | ⟨l, hl, hlen, _, _⟩ => ⟨l, hl, by rw [hlen]; rfl⟩⟩

/-- C9: torrent-name classification.  For every parsed result of the
external free-form parser, a successful `parse_torrent` classifies the
name as `"show"` iff season or single-episode metadata is present
(the `"seasons"` and `"episode"` keys), else `"movie"`; it fails (the
`ValueError` branch) exactly when no title was extracted. -/
theorem C9_parse_torrent_classification :
    ∀ p : PTTResult,
      (∀ t y k, parse_torrent p = Except.ok (t, y, k) →
        ((k = "show" ↔ (p.seasons ≠ [] ∨ p.episode ≠ [])) ∧ (k = "show" ∨ k = "movie"))) ∧
      ((∃ msg, parse_torrent p = Except.error msg) ↔
        (p.title = none ∨ p.title = some "")) := by
  intro p
  obtain ⟨ptitle, pyear, pseasons, pepisodes, pepisode⟩ := p
  constructor
  · intro t y k hok
    cases ptitle with
    | none => exact absurd hok (by simp [parse_torrent])
    | some s =>
      by_cases hs : s = ""
      · exact absurd hok (by simp [parse_torrent, hs])
      · have hok' :
            (Except.ok (s, pyear,
                determine_media_type ⟨some s, pyear, pseasons, pepisodes, pepisode⟩) :
              Except String (String × Option Nat × String)) = Except.ok (t, y, k) := by
          simpa [parse_torrent, hs] using hok
        have hk : determine_media_type ⟨some s, pyear, pseasons, pepisodes, pepisode⟩ = k :=
          congrArg (fun r => r.2.2) (Except.ok.inj hok')
        subst hk
        by_cases hc : pseasons ≠ [] ∨ pepisode ≠ []
        · simp [determine_media_type, hc]
        · simp [determine_media_type, hc]
  · constructor
    · rintro ⟨msg, hmsg⟩
      cases ptitle with
      | none => exact Or.inl rfl
      | some s =>
        by_cases hs : s = ""
        · exact Or.inr (by rw [hs])
        · exact absurd hmsg (by simp [parse_torrent, hs])
    · rintro (h | h)
      · have : ptitle = none := by simpa using h
        subst this
        exact ⟨_, rfl⟩
      · have : ptitle = some "" := by simpa using h
        subst this
        exact ⟨"Missing title in parsed result", by simp [parse_torrent]⟩

/-- Witness for C9 at a concrete parsed result with a season list. -/
theorem C9_parse_torrent_classification_witness :
    ("show" = "show" ↔
      (([1] : List Nat) ≠ [] ∨ ([] : List Nat) ≠ [])) ∧
    ("show" = "show" ∨ "show" = "movie") :=
  (C9_parse_torrent_classification ⟨some "T", some 1999, [1], [1], []⟩).1
    "T" (some 1999) "show" rfl

/-- C10: `Resolver.get_imdb_id` raises `ValueError` for an empty title,
and for a kind outside `{"movie", "show"}`, for every possible behaviour
of the external search service — the search oracle is never consulted,
so the validation happens before contacting the service.  (Neither
validation failure appears in the spec's `resolveExternalId` contract.) -/
theorem C10_resolver_validation :
    ∀ (title : String) (year : Option String) (kind : String)
      (search : String → Option (List SearchResult)),
      (title = "" →
        get_imdb_id title year kind search
          = ResolverOutcome.valueError "Title cannot be empty") ∧
      (title ≠ "" → kind ≠ "movie" → kind ≠ "show" →
        get_imdb_id title year kind search
          = ResolverOutcome.valueError "Invalid media type") := by
  intro title year kind search
  constructor
  · intro h
    unfold get_imdb_id
    rw [if_pos h]
  · intro ht hm hs
    unfold get_imdb_id
    rw [if_neg ht, if_pos]
    simp [VALID_TYPES, hm, hs]

/-- Witness for C10: the two validation failures at concrete arguments,
served by an oracle that would itself fail if consulted. -/
theorem C10_resolver_validation_witness :
    get_imdb_id "" (some "1999") "movie" (fun _ => none)
      = ResolverOutcome.valueError "Title cannot be empty" ∧
    get_imdb_id "The Matrix" (some "1999") "series" (fun _ => none)
      = ResolverOutcome.valueError "Invalid media type" :=
  ⟨(C10_resolver_validation "" (some "1999") "movie" (fun _ => none)).1 rfl,
   (C10_resolver_validation "The Matrix" (some "1999") "series" (fun _ => none)).2
     (by decide) (by decide) (by decide)⟩

theorem gufLoop_first_free (fs : List String) (dir stem ext : String) :
    ∀ (fuel v : Nat) (r : String), gufLoop fs dir stem ext v fuel = some r →
      ∃ n, v ≤ n ∧ r = versionedName stem ext n ∧
        fs.contains (dir ++ "/" ++ versionedName stem ext n) = false ∧
        ∀ m, v ≤ m → m < n →
          fs.contains (dir ++ "/" ++ versionedName stem ext m) = true := by
  intro fuel
  induction fuel with
  | zero =>
    intro v r h
    cases h
  | succ fuel ih =>
    intro v r h
    simp only [gufLoop] at h
    by_cases hc : fs.contains (dir ++ "/" ++ versionedName stem ext v)
    · rw [if_pos hc] at h
      obtain ⟨n, hvn, hr, hfree, hall⟩ := ih (v + 1) r h
      refine ⟨n, Nat.le_of_succ_le hvn, hr, hfree, ?_⟩
      intro m hvm hmn
      by_cases hm : m = v
      · exact hm ▸ hc
      · exact hall m (Nat.succ_le_of_lt (Nat.lt_of_le_of_ne hvm (Ne.symm hm))) hmn
    · rw [if_neg hc] at h
      cases h
      refine ⟨v, Nat.le_refl v, rfl, by simpa using hc, ?_⟩
      intro m hvm hmv
      exact absurd (Nat.lt_of_le_of_lt hvm hmv) (Nat.lt_irrefl v)

/-- C6: collision versioning.  If no file exists at the exact name, the
exact name is returned.  Otherwise any returned name is the base stem
with `" - v{n}"` inserted before the extension, where `n` is the first
free integer starting at 2 (every version from 2 up to `n` exclusive is
taken, versions being tried in strictly increasing order).  With the
exact name taken the result carries `" - v2"`; with `" - v2"` also
taken, `" - v3"`. -/
theorem C6_get_unique_filename :
    (∀ (fs : List String) (dir name : String) (fuel : Nat),
        fs.contains (dir ++ "/" ++ name) = false →
        get_unique_filename fs dir name fuel = some name) ∧
    (∀ (fs : List String) (dir name : String) (fuel : Nat) (r : String),
        fs.contains (dir ++ "/" ++ name) = true →
        get_unique_filename fs dir name fuel = some r →
        ∃ n, 2 ≤ n ∧
          r = versionedName (pySplitName name).1 (pySplitName name).2 n ∧
          fs.contains (dir ++ "/" ++ r) = false ∧
          ∀ m, 2 ≤ m → m < n →
            fs.contains
              (dir ++ "/" ++ versionedName (pySplitName name).1 (pySplitName name).2 m)
              = true) ∧
    get_unique_filename ["lib/Show (2020) \x7bimdb-tt1\x7d - s01e01.mkv"] "lib"
        "Show (2020) \x7bimdb-tt1\x7d - s01e01.mkv" 9
      = some "Show (2020) \x7bimdb-tt1\x7d - s01e01 - v2.mkv" ∧
    get_unique_filename
        ["lib/Show (2020) \x7bimdb-tt1\x7d - s01e01.mkv",
         "lib/Show (2020) \x7bimdb-tt1\x7d - s01e01 - v2.mkv"] "lib"
        "Show (2020) \x7bimdb-tt1\x7d - s01e01.mkv" 9
      = some "Show (2020) \x7bimdb-tt1\x7d - s01e01 - v3.mkv" := by
  refine ⟨?_, ?_, by rfl, by rfl⟩
  · intro fs dir name fuel h
    have h' : ¬ (fs.contains (dir ++ "/" ++ name) = true) := by simpa using h
    rw [get_unique_filename, if_neg h']
  · intro fs dir name fuel r h1 h2
    rw [get_unique_filename, if_pos h1] at h2
    obtain ⟨n, h2n, hr, hfree, hall⟩ := gufLoop_first_free fs dir _ _ fuel 2 r h2
    exact ⟨n, h2n, hr, hr ▸ hfree, hall⟩

/-- Witness for C6: the exact name is returned on a free filesystem, and
on a filesystem where the exact name and `" - v2"` are taken, the loop's
result `" - v3"` is the first free version. -/
theorem C6_get_unique_filename_witness :
    get_unique_filename [] "d" "a.mkv" 3 = some "a.mkv" ∧
    ∃ n, 2 ≤ n ∧
      ("a - v3.mkv" : String)
        = versionedName (pySplitName "a.mkv").1 (pySplitName "a.mkv").2 n ∧
      (["d/a.mkv", "d/a - v2.mkv"] : List String).contains ("d" ++ "/" ++ "a - v3.mkv")
        = false ∧
      ∀ m, 2 ≤ m → m < n →
        (["d/a.mkv", "d/a - v2.mkv"] : List String).contains
          ("d" ++ "/" ++ versionedName (pySplitName "a.mkv").1 (pySplitName "a.mkv").2 m)
          = true :=
  ⟨C6_get_unique_filename.1 [] "d" "a.mkv" 3 rfl,
   C6_get_unique_filename.2.1 ["d/a.mkv", "d/a - v2.mkv"] "d" "a.mkv" 5 "a - v3.mkv"
     rfl rfl⟩

/-!
## Lemmas for the `parse_media` pattern (C8)
-/

theorem run_align (p : α → Bool) :
    ∀ (as bs : List α) (x y : α) (xs ys : List α),
      (∀ c ∈ as, p c = true) → (∀ c ∈ bs, p c = true) →
      p x = false → p y = false →
      as ++ x :: xs = bs ++ y :: ys → as = bs ∧ x = y ∧ xs = ys := by
  intro as
  induction as with
  | nil =>
    intro bs x y xs ys _ hb hx hy heq
    cases bs with
    | nil =>
      simp only [List.nil_append, List.cons.injEq] at heq
      exact ⟨rfl, heq.1, heq.2⟩
    | cons b bs' =>
      simp only [List.nil_append, List.cons_append, List.cons.injEq] at heq
      rw [heq.1] at hx
      rw [hb b (List.mem_cons_self b bs')] at hx
      cases hx
  | cons a as' ih =>
    intro bs x y xs ys ha hb hx hy heq
    cases bs with
    | nil =>
      simp only [List.cons_append, List.nil_append, List.cons.injEq] at heq
      rw [← heq.1] at hy
      rw [ha a (List.mem_cons_self a as')] at hy
      cases hy
    | cons b bs' =>
      simp only [List.cons_append, List.cons.injEq] at heq
      obtain ⟨hab, heq'⟩ := heq
      obtain ⟨h1, h2, h3⟩ :=
        ih bs' x y xs ys (fun c hc => ha c (List.mem_cons_of_mem a hc))
          (fun c hc => hb c (List.mem_cons_of_mem b hc)) hx hy heq'
      exact ⟨by rw [hab, h1], h2, h3⟩

theorem dropWhile_idem (p : α → Bool) (l : List α) :
    (l.dropWhile p).dropWhile p = l.dropWhile p := by
  induction l with
  | nil => rfl
  | cons a l ih =>
    by_cases h : p a
    · simp [List.dropWhile_cons, h, ih]
    · simp [List.dropWhile_cons, h]

theorem dropWhile_append_of_exists_neg (p : α → Bool) :
    ∀ (l1 l2 : List α), (∃ x ∈ l1, p x = false) →
      (l1 ++ l2).dropWhile p = l1.dropWhile p ++ l2 := by
  intro l1
  induction l1 with
  | nil =>
    intro l2 h
    obtain ⟨x, hx, _⟩ := h
    cases hx
  | cons a l1' ih =>
    intro l2 h
    by_cases ha : p a
    · have h' : ∃ x ∈ l1', p x = false := by
        obtain ⟨x, hx, hpx⟩ := h
        rcases List.mem_cons.mp hx with h1 | h1
        · rw [h1, ha] at hpx
          cases hpx
        · exact ⟨x, h1, hpx⟩
      simp [List.dropWhile_cons, ha, ih l2 h']
    · simp [List.dropWhile_cons, ha]

theorem dropTrailingSpaces_eq_nil (u : List Char)
    (h : ∀ x ∈ u, isPySpace x = true) : dropTrailingSpaces u = [] := by
  unfold dropTrailingSpaces
  rw [List.dropWhile_eq_nil_iff.mpr (fun x hx => h x (List.mem_reverse.mp hx))]
  rfl

theorem dropTrailingSpaces_cons_of_nonspace (c : Char) (u : List Char)
    (hu : ∃ x ∈ c :: u, isPySpace x = false) :
    dropTrailingSpaces (c :: u) = c :: dropTrailingSpaces u := by
  unfold dropTrailingSpaces
  by_cases h2 : ∃ x ∈ u, isPySpace x = false
  · have h2' : ∃ x ∈ u.reverse, isPySpace x = false := by
      obtain ⟨x, hx, hpx⟩ := h2
      exact ⟨x, List.mem_reverse.mpr hx, hpx⟩
    rw [List.reverse_cons, dropWhile_append_of_exists_neg isPySpace u.reverse [c] h2']
    simp
  · have hall : ∀ x ∈ u, isPySpace x = true := by
      intro x hx
      by_contra hpx
      exact h2 ⟨x, hx, by simpa using hpx⟩
    have hc : isPySpace c = false := by
      obtain ⟨x, hx, hpx⟩ := hu
      rcases List.mem_cons.mp hx with h1 | h1
      · rw [← h1]
        exact hpx
      · rw [hall x h1] at hpx
        cases hpx
    have hrev : ∀ x ∈ u.reverse, isPySpace x = true :=
      fun x hx => hall x (List.mem_reverse.mp hx)
    rw [List.reverse_cons, List.dropWhile_append_of_pos hrev,
      List.dropWhile_eq_nil_iff.mpr hrev]
    simp [List.dropWhile_cons, hc]

theorem dropWhile_dropTrailing_comm (u : List Char) :
    (dropTrailingSpaces u).dropWhile isPySpace
      = dropTrailingSpaces (u.dropWhile isPySpace) := by
  induction u with
  | nil => rfl
  | cons c u' ih =>
    by_cases hc : isPySpace c
    · by_cases hex : ∃ x ∈ u', isPySpace x = false
      · rw [dropTrailingSpaces_cons_of_nonspace c u'
          (by obtain ⟨x, hx, hpx⟩ := hex; exact ⟨x, List.mem_cons_of_mem c hx, hpx⟩)]
        rw [List.dropWhile_cons]
        simp only [hc, if_true, ite_true]
        rw [ih, List.dropWhile_cons]
        simp [hc]
      · have hall : ∀ x ∈ c :: u', isPySpace x = true := by
          intro x hx
          rcases List.mem_cons.mp hx with h1 | h1
          · rw [h1]
            exact hc
          · by_contra hpx
            exact hex ⟨x, h1, by simpa using hpx⟩
        rw [dropTrailingSpaces_eq_nil _ hall]
        rw [List.dropWhile_cons]
        simp only [hc, if_true, ite_true]
        rw [List.dropWhile_eq_nil_iff.mpr
          (fun x hx => hall x (List.mem_cons_of_mem c hx))]
        rfl
    · have hu : ∃ x ∈ c :: u', isPySpace x = false :=
        ⟨c, List.mem_cons_self c u', by simpa using hc⟩
      have hc' : isPySpace c = false := by simpa using hc
      rw [dropTrailingSpaces_cons_of_nonspace c u' hu, List.dropWhile_cons,
        List.dropWhile_cons, hc']
      simp [dropTrailingSpaces_cons_of_nonspace c u' hu]

theorem pyStrip_dropTrailing (t : String) :
    pyStrip ⟨dropTrailingSpaces t.toList⟩ = pyStrip t := by
  unfold pyStrip
  have h1 : (String.mk (dropTrailingSpaces t.toList)).toList
      = dropTrailingSpaces t.toList := rfl
  rw [h1, dropWhile_dropTrailing_comm]
  unfold dropTrailingSpaces
  rw [List.reverse_reverse, dropWhile_idem]

theorem matchBrace_build (y : String) (idl tl : List Char)
    (hidl : idl ≠ []) (hdig : ∀ c ∈ idl, c.isDigit = true)
    (htl : tl = [] ∨ tl = ['\n']) :
    matchBrace y
        ('\x7b' :: 'i' :: 'm' :: 'd' :: 'b' :: '-' :: 't' :: 't' ::
          (idl ++ '\x7d' :: tl))
      = some (y, ⟨idl⟩) := by
  have htw : (idl ++ '\x7d' :: tl).takeWhile Char.isDigit = idl := by
    rw [List.takeWhile_append_of_pos hdig]
    simp [List.takeWhile_cons]
  have hdw : (idl ++ '\x7d' :: tl).dropWhile Char.isDigit = '\x7d' :: tl := by
    rw [List.dropWhile_append_of_pos hdig]
    simp [List.dropWhile_cons]
  obtain ⟨d, ds, rfl⟩ : ∃ d ds, idl = d :: ds := by
    cases idl with
    | nil => exact absurd rfl hidl
    | cons d ds => exact ⟨d, ds, rfl⟩
  simp only [matchBrace, htw, hdw]
  rw [if_pos htl]

theorem matchBrace_some (y : String) (cs : List Char) (y' i : String)
    (h : matchBrace y cs = some (y', i)) :
    y' = y ∧ ∃ idl tl,
      cs = '\x7b' :: 'i' :: 'm' :: 'd' :: 'b' :: '-' :: 't' :: 't' ::
        (idl ++ '\x7d' :: tl) ∧
      idl ≠ [] ∧ (∀ c ∈ idl, c.isDigit = true) ∧ (tl = [] ∨ tl = ['\n']) ∧
      i = ⟨idl⟩ := by
  unfold matchBrace at h
  split at h
  case _ rest =>
    split at h
    · cases h
    case _ d ds heq2 =>
      split at h
      case _ tl heq3 =>
        split at h
        case isTrue htl =>
          injection h with h'
          injection h' with hy hi
          refine ⟨hy.symm, d :: ds, tl, ?_, by simp, ?_, htl, hi.symm⟩
          · have := List.takeWhile_append_dropWhile (p := Char.isDigit) (l := rest)
            rw [heq2, heq3] at this
            rw [← this]
          · intro c hc
            exact List.mem_takeWhile_imp (heq2 ▸ hc)
        case isFalse => cases h
      case _ => cases h
  case _ => cases h

theorem dropSpaces_append_of_all (ws R : List Char)
    (hws : ∀ x ∈ ws, isPySpace x = true) :
    dropSpaces (ws ++ R) = dropSpaces R := by
  unfold dropSpaces
  exact List.dropWhile_append_of_pos hws

theorem dropSpaces_cons_of_nonspace (c : Char) (R : List Char)
    (hc : isPySpace c = false) : dropSpaces (c :: R) = c :: R := by
  unfold dropSpaces
  simp [List.dropWhile_cons, hc]

theorem matchTail_build (ws ws2 idl : List Char) (a b c d : Char)
    (hws : ∀ x ∈ ws, isPySpace x = true) (hws2 : ∀ x ∈ ws2, isPySpace x = true)
    (ha : a.isDigit = true) (hb : b.isDigit = true)
    (hc : c.isDigit = true) (hd : d.isDigit = true)
    (hidl : idl ≠ []) (hdig : ∀ x ∈ idl, x.isDigit = true) :
    matchTail (ws ++ '(' :: a :: b :: c :: d :: ')' ::
        (ws2 ++ '\x7b' :: 'i' :: 'm' :: 'd' :: 'b' :: '-' :: 't' :: 't' ::
          (idl ++ ['\x7d'])))
      = some (⟨[a, b, c, d]⟩, ⟨idl⟩) := by
  have h1 : dropSpaces (ws ++ '(' :: a :: b :: c :: d :: ')' ::
      (ws2 ++ '\x7b' :: 'i' :: 'm' :: 'd' :: 'b' :: '-' :: 't' :: 't' ::
        (idl ++ ['\x7d'])))
      = '(' :: a :: b :: c :: d :: ')' ::
        (ws2 ++ '\x7b' :: 'i' :: 'm' :: 'd' :: 'b' :: '-' :: 't' :: 't' ::
          (idl ++ ['\x7d'])) := by
    rw [dropSpaces_append_of_all _ _ hws]
    exact dropSpaces_cons_of_nonspace '(' _ rfl
  have h2 : dropSpaces (ws2 ++ '\x7b' :: 'i' :: 'm' :: 'd' :: 'b' :: '-' :: 't' :: 't' ::
        (idl ++ ['\x7d']))
      = '\x7b' :: 'i' :: 'm' :: 'd' :: 'b' :: '-' :: 't' :: 't' :: (idl ++ ['\x7d']) := by
    rw [dropSpaces_append_of_all _ _ hws2]
    exact dropSpaces_cons_of_nonspace '\x7b' _ rfl
  unfold matchTail
  rw [h1]
  show (if a.isDigit && b.isDigit && c.isDigit && d.isDigit then
      matchBrace ⟨[a, b, c, d]⟩
        (dropSpaces (ws2 ++ '\x7b' :: 'i' :: 'm' :: 'd' :: 'b' :: '-' :: 't' :: 't' ::
          (idl ++ ['\x7d'])))
    else none) = some (⟨[a, b, c, d]⟩, ⟨idl⟩)
  rw [ha, hb, hc, hd]
  simp only [Bool.and_self, if_true, ite_true]
  rw [h2]
  have := matchBrace_build ⟨[a, b, c, d]⟩ idl [] hidl hdig (Or.inl rfl)
  simpa using this

theorem matchTail_some (cs : List Char) (y i : String)
    (h : matchTail cs = some (y, i)) :
    ∃ w1 w2 idl tl,
      cs = w1 ++ '(' :: (y.toList ++ ')' ::
        (w2 ++ '\x7b' :: 'i' :: 'm' :: 'd' :: 'b' :: '-' :: 't' :: 't' ::
          (idl ++ '\x7d' :: tl))) ∧
      (∀ x ∈ w1, isPySpace x = true) ∧ (∀ x ∈ w2, isPySpace x = true) ∧
      y.toList.length = 4 ∧ (∀ x ∈ y.toList, x.isDigit = true) ∧
      idl ≠ [] ∧ (∀ x ∈ idl, x.isDigit = true) ∧
      (tl = [] ∨ tl = ['\n']) ∧ i = ⟨idl⟩ := by
  unfold matchTail at h
  split at h
  case _ a b c d rest heq =>
    split at h
    case isTrue hdig4 =>
      obtain ⟨hy, idl, tl, hrest2, hidl, hdig, htl, hi⟩ := matchBrace_some _ _ _ _ h
      have hcs : cs = cs.takeWhile isPySpace ++
          ('(' :: a :: b :: c :: d :: ')' :: rest) := by
        conv_lhs => rw [← List.takeWhile_append_dropWhile (p := isPySpace) (l := cs)]
        rw [show cs.dropWhile isPySpace = dropSpaces cs from rfl, heq]
      have hrest : rest = rest.takeWhile isPySpace ++
          ('\x7b' :: 'i' :: 'm' :: 'd' :: 'b' :: '-' :: 't' :: 't' ::
            (idl ++ '\x7d' :: tl)) := by
        conv_lhs => rw [← List.takeWhile_append_dropWhile (p := isPySpace) (l := rest)]
        rw [show rest.dropWhile isPySpace = dropSpaces rest from rfl, hrest2]
      have hytl : y.toList = [a, b, c, d] := by
        rw [hy]
        rfl
      simp only [Bool.and_eq_true] at hdig4
      obtain ⟨⟨⟨haa, hbb⟩, hcc⟩, hdd⟩ := hdig4
      refine ⟨cs.takeWhile isPySpace, rest.takeWhile isPySpace, idl, tl, ?_, ?_, ?_,
        ?_, ?_, hidl, hdig, htl, hi⟩
      · rw [hytl]
        conv_lhs => rw [hcs]
        conv_lhs => rw [hrest]
        simp [List.append_assoc]
      · exact fun x hx => List.mem_takeWhile_imp hx
      · exact fun x hx => List.mem_takeWhile_imp hx
      · rw [hytl]
        rfl
      · rw [hytl]
        intro x hx
        simp only [List.mem_cons, List.not_mem_nil, or_false] at hx
        rcases hx with h1 | h1 | h1 | h1 <;> (subst h1; assumption)
    case isFalse => cases h
  case _ => cases h

theorem run_align_rev (p : α → Bool) (as bs xs ys : List α) (x y : α)
    (has : ∀ e ∈ as, p e = true) (hbs : ∀ e ∈ bs, p e = true)
    (hx : p x = false) (hy : p y = false)
    (heq : xs ++ x :: as = ys ++ y :: bs) : as = bs ∧ x = y ∧ xs = ys := by
  have heq' : as.reverse ++ x :: xs.reverse = bs.reverse ++ y :: ys.reverse := by
    have h0 := congrArg List.reverse heq
    simpa [List.reverse_append] using h0
  obtain ⟨h1, h2, h3⟩ := run_align p as.reverse bs.reverse x y xs.reverse ys.reverse
    (fun e he => has e (List.mem_reverse.mp he))
    (fun e he => hbs e (List.mem_reverse.mp he)) hx hy heq'
  refine ⟨?_, h2, ?_⟩
  · have := congrArg List.reverse h1
    simpa using this
  · have := congrArg List.reverse h3
    simpa using this

theorem matchTail_none_of_nonspace (u : List Char) (a b c d : Char) (idl : List Char)
    (hu : ∃ x ∈ u, isPySpace x = false)
    (ha : a.isDigit = true) (hb : b.isDigit = true)
    (hc : c.isDigit = true) (hd : d.isDigit = true)
    (hdig : ∀ x ∈ idl, x.isDigit = true) :
    matchTail (u ++ (' ' :: '(' :: a :: b :: c :: d :: ')' :: ' ' ::
        '\x7b' :: 'i' :: 'm' :: 'd' :: 'b' :: '-' :: 't' :: 't' :: (idl ++ ['\x7d'])))
      = none := by
  cases hmt : matchTail (u ++ (' ' :: '(' :: a :: b :: c :: d :: ')' :: ' ' ::
      '\x7b' :: 'i' :: 'm' :: 'd' :: 'b' :: '-' :: 't' :: 't' :: (idl ++ ['\x7d']))) with
  | none => rfl
  | some yi =>
    exfalso
    obtain ⟨w1, w2, idl', tl, hceq, hw1, hw2, _, hydig, _, hdig', htl, _⟩ :=
      matchTail_some _ yi.1 yi.2 hmt
    have htlp : ∀ e ∈ tl, (!(e == '\x7d')) = true := by
      rcases htl with h | h <;> subst h <;> intro e he
      · cases he
      · rw [List.mem_singleton.mp he]
        rfl
    have hEA : (u ++ [' ', '(', a, b, c, d, ')', ' ', '\x7b', 'i', 'm', 'd', 'b', '-', 't', 't']
          ++ idl) ++ '\x7d' :: ([] : List Char)
        = (w1 ++ ['('] ++ yi.1.toList ++ [')'] ++ w2
          ++ ['\x7b', 'i', 'm', 'd', 'b', '-', 't', 't'] ++ idl') ++ '\x7d' :: tl := by
      simpa [List.append_assoc] using hceq
    obtain ⟨_, _, hE1⟩ :=
      run_align_rev (fun e => !(e == '\x7d')) [] tl _ _ '\x7d' '\x7d'
        (fun e he => absurd he (List.not_mem_nil e)) htlp (by rfl) (by rfl) hEA
    have hEB : (u ++ [' ', '(', a, b, c, d, ')', ' ', '\x7b', 'i', 'm', 'd', 'b', '-', 't'])
          ++ 't' :: idl
        = (w1 ++ ['('] ++ yi.1.toList ++ [')'] ++ w2 ++ ['\x7b', 'i', 'm', 'd', 'b', '-', 't'])
          ++ 't' :: idl' := by
      simpa [List.append_assoc] using hE1
    obtain ⟨_, _, hE2⟩ :=
      run_align_rev Char.isDigit idl idl' _ _ 't' 't' hdig hdig'
        (by rfl) (by rfl) hEB
    have hEC : (u ++ [' ', '(', a, b, c, d, ')', ' '])
          ++ ['\x7b', 'i', 'm', 'd', 'b', '-', 't']
        = (w1 ++ ['('] ++ yi.1.toList ++ [')'] ++ w2)
          ++ ['\x7b', 'i', 'm', 'd', 'b', '-', 't'] := by
      simpa [List.append_assoc] using hE2
    have hE3 := List.append_cancel_right hEC
    have hED : (u ++ [' ', '(', a, b, c, d]) ++ ')' :: [' ']
        = (w1 ++ ['('] ++ yi.1.toList) ++ ')' :: w2 := by
      simpa [List.append_assoc] using hE3
    obtain ⟨_, _, hE4⟩ :=
      run_align_rev isPySpace [' '] w2 _ _ ')' ')'
        (fun e he => by rw [List.mem_singleton.mp he]; rfl) hw2
        (by rfl) (by rfl) hED
    have hEE : (u ++ [' ']) ++ '(' :: [a, b, c, d] = w1 ++ '(' :: yi.1.toList := by
      simpa [List.append_assoc] using hE4
    obtain ⟨_, _, hE5⟩ :=
      run_align_rev Char.isDigit [a, b, c, d] yi.1.toList _ _ '(' '('
        (by
          intro e he
          simp only [List.mem_cons, List.not_mem_nil, or_false] at he
          rcases he with h1 | h1 | h1 | h1 <;> (subst h1; assumption))
        hydig (by rfl) (by rfl) hEE
    obtain ⟨x0, hx0, hpx0⟩ := hu
    have : isPySpace x0 = true := by
      have hx0' : x0 ∈ w1 := by
        rw [← hE5]
        exact List.mem_append_left _ hx0
      exact hw1 x0 hx0'
    rw [hpx0] at this
    cases this

theorem scanTitle_build (a b c d : Char) (idl : List Char)
    (ha : a.isDigit = true) (hb : b.isDigit = true)
    (hc : c.isDigit = true) (hd : d.isDigit = true)
    (hidl : idl ≠ []) (hdig : ∀ x ∈ idl, x.isDigit = true) :
    ∀ u : List Char, (∀ x ∈ u, ¬ x = '\n') →
      scanTitle (u ++ (' ' :: '(' :: a :: b :: c :: d :: ')' :: ' ' ::
          '\x7b' :: 'i' :: 'm' :: 'd' :: 'b' :: '-' :: 't' :: 't' :: (idl ++ ['\x7d'])))
        = some (dropTrailingSpaces u, ⟨[a, b, c, d]⟩, ⟨idl⟩) := by
  intro u
  induction u with
  | nil =>
    intro _
    have hmt : matchTail (' ' :: '(' :: a :: b :: c :: d :: ')' :: ' ' ::
        '\x7b' :: 'i' :: 'm' :: 'd' :: 'b' :: '-' :: 't' :: 't' :: (idl ++ ['\x7d']))
        = some (⟨[a, b, c, d]⟩, ⟨idl⟩) := by
      have := matchTail_build [' '] [' '] idl a b c d
        (by intro x hx; rw [List.mem_singleton.mp hx]; rfl)
        (by intro x hx; rw [List.mem_singleton.mp hx]; rfl)
        ha hb hc hd hidl hdig
      simpa using this
    simp only [List.nil_append, scanTitle, hmt]
    rfl
  | cons c0 u' ih =>
    intro hnl
    by_cases hall : ∀ x ∈ c0 :: u', isPySpace x = true
    · have hmt : matchTail ((c0 :: u') ++ (' ' :: '(' :: a :: b :: c :: d :: ')' :: ' ' ::
          '\x7b' :: 'i' :: 'm' :: 'd' :: 'b' :: '-' :: 't' :: 't' :: (idl ++ ['\x7d'])))
          = some (⟨[a, b, c, d]⟩, ⟨idl⟩) := by
        have hws : ∀ x ∈ (c0 :: u') ++ [' '], isPySpace x = true := by
          intro x hx
          rcases List.mem_append.mp hx with h1 | h1
          · exact hall x h1
          · rw [List.mem_singleton.mp h1]
            rfl
        have := matchTail_build ((c0 :: u') ++ [' ']) [' '] idl a b c d
          hws (by intro x hx; rw [List.mem_singleton.mp hx]; rfl)
          ha hb hc hd hidl hdig
        simpa [List.append_assoc] using this
      rw [List.cons_append]
      rw [List.cons_append] at hmt
      simp only [scanTitle, hmt]
      rw [dropTrailingSpaces_eq_nil _ hall]
    · have hex : ∃ x ∈ c0 :: u', isPySpace x = false := by
        push_neg at hall
        obtain ⟨x0, hx0, hpx0⟩ := hall
        exact ⟨x0, hx0, by simpa using hpx0⟩
      have hmt := matchTail_none_of_nonspace (c0 :: u') a b c d idl hex ha hb hc hd hdig
      have hc0 : ¬ c0 = '\n' := hnl c0 (List.mem_cons_self c0 u')
      have ih' := ih (fun x hx => hnl x (List.mem_cons_of_mem c0 hx))
      rw [List.cons_append]
      rw [List.cons_append] at hmt
      simp only [scanTitle, hmt, if_neg hc0, ih']
      rw [dropTrailingSpaces_cons_of_nonspace c0 u' hex]

theorem scanTitle_some_decomp :
    ∀ (cs ttl : List Char) (y i : String), scanTitle cs = some (ttl, y, i) →
      ∃ sfx, cs = ttl ++ sfx ∧ matchTail sfx = some (y, i) := by
  intro cs
  induction cs with
  | nil =>
    intro ttl y i h
    cases h
  | cons c rest ih =>
    intro ttl y i h
    cases hmt : matchTail (c :: rest) with
    | some yi =>
      rw [scanTitle, hmt] at h
      injection h with h'
      rw [show (ttl, y, i) = (ttl, (y, i)) from rfl] at h'
      have h1 : ttl = [] := congrArg Prod.fst h'.symm
      have h2 : yi = (y, i) := congrArg Prod.snd h'
      subst h1
      rw [← h2]
      exact ⟨c :: rest, rfl, hmt⟩
    | none =>
      rw [scanTitle, hmt] at h
      by_cases hcnl : c = '\n'
      · rw [if_pos hcnl] at h
        cases h
      · rw [if_neg hcnl] at h
        cases hscan : scanTitle rest with
        | none =>
          rw [hscan] at h
          cases h
        | some r =>
          rw [hscan] at h
          injection h with h'
          obtain ⟨sfx, hcs, hmt'⟩ := ih r.1 r.2.1 r.2.2 (by rw [hscan])
          have httl : ttl = c :: r.1 := congrArg Prod.fst h'.symm
          have hyi : (y, i) = (r.2.1, r.2.2) := congrArg Prod.snd h'.symm
          have hy : y = r.2.1 := congrArg Prod.fst hyi
          have hi : i = r.2.2 := congrArg Prod.snd hyi
          subst httl hy hi
          exact ⟨sfx, by rw [List.cons_append, ← hcs], hmt'⟩

theorem string_mk_toList (s : String) : (⟨s.toList⟩ : String) = s := by
  cases s
  rfl

/-- C8: library-name parse round-trip.  First part: for every name of
the form `Title (Year) \x7bimdb-ttID\x7d` — title free of newlines (the
regex `.` cannot match one), a 4-digit year, a non-empty digit-run ID —
`parse_media` succeeds with the title trimmed of surrounding whitespace,
the year string and the ID string.  Second part: whenever `parse_media`
succeeds the name contains the bracketed ID segment
`\x7bimdb-tt<digits>\x7d` (so any name missing that segment fails with
the FormatError, modelled as `none`). -/
theorem C8_parse_media_round_trip :
    (∀ (t y i : String),
        (∀ c ∈ t.toList, ¬ c = '\n') →
        y.toList.length = 4 → (∀ c ∈ y.toList, c.isDigit = true) →
        i.toList ≠ [] → (∀ c ∈ i.toList, c.isDigit = true) →
        parse_media (t ++ " (" ++ y ++ ") \x7bimdb-tt" ++ i ++ "\x7d")
          = some (pyStrip t, y, i)) ∧
    (∀ (name : String) (r : String × String × String),
        parse_media name = some r →
        ∃ pre idl tl,
          name.toList
            = pre ++ '\x7b' :: 'i' :: 'm' :: 'd' :: 'b' :: '-' :: 't' :: 't' ::
                (idl ++ '\x7d' :: tl) ∧
          idl ≠ [] ∧ ∀ c ∈ idl, c.isDigit = true) := by
  constructor
  · intro t y i hnl hylen hydig hine hidig
    obtain ⟨a, b, c, d, hY⟩ : ∃ a b c d, y.toList = [a, b, c, d] := by
      match hY : y.toList, hylen with
      | [a, b, c, d], _ => exact ⟨a, b, c, d, rfl⟩
    have haa : a.isDigit = true := hydig a (by rw [hY]; exact List.mem_cons_self _ _)
    have hbb : b.isDigit = true := hydig b (by rw [hY]; simp)
    have hcc : c.isDigit = true := hydig c (by rw [hY]; simp)
    have hdd : d.isDigit = true := hydig d (by rw [hY]; simp)
    have happ : ∀ s r : String, (s ++ r).toList = s.toList ++ r.toList :=
      fun s r => String.data_append s r
    have hname : (t ++ " (" ++ y ++ ") \x7bimdb-tt" ++ i ++ "\x7d").toList
        = t.toList ++ (' ' :: '(' :: a :: b :: c :: d :: ')' :: ' ' ::
            '\x7b' :: 'i' :: 'm' :: 'd' :: 'b' :: '-' :: 't' :: 't' ::
            (i.toList ++ ['\x7d'])) := by
      rw [happ, happ, happ, happ, happ, hY,
        show (" (" : String).toList = [' ', '('] from rfl,
        show (") \x7bimdb-tt" : String).toList
          = [')', ' ', '\x7b', 'i', 'm', 'd', 'b', '-', 't', 't'] from rfl,
        show ("\x7d" : String).toList = ['\x7d'] from rfl]
      simp [List.append_assoc]
    have hscan := scanTitle_build a b c d i.toList haa hbb hcc hdd hine hidig
      t.toList hnl
    have hYs : (⟨[a, b, c, d]⟩ : String) = y := by
      rw [← hY]
      exact string_mk_toList y
    unfold parse_media
    rw [hname, hscan]
    show some (pyStrip ⟨dropTrailingSpaces t.toList⟩,
        (⟨[a, b, c, d]⟩ : String), (⟨i.toList⟩ : String)) = some (pyStrip t, y, i)
    rw [pyStrip_dropTrailing, hYs, string_mk_toList i]
  · intro name r hpm
    unfold parse_media at hpm
    cases hscan : scanTitle name.toList with
    | none =>
      rw [hscan] at hpm
      cases hpm
    | some tri =>
      obtain ⟨sfx, hcs, hmt⟩ :=
        scanTitle_some_decomp name.toList tri.1 tri.2.1 tri.2.2 hscan
      obtain ⟨w1, w2, idl, tl, hsfx, _, _, _, _, hidl, hdig, _, _⟩ :=
        matchTail_some sfx tri.2.1 tri.2.2 hmt
      refine ⟨tri.1 ++ w1 ++ '(' :: tri.2.1.toList ++ [')'] ++ w2, idl, tl, ?_,
        hidl, hdig⟩
      rw [hcs, hsfx]
      simp [List.append_assoc]

/-- Witness for C8 at a concrete library name: the round trip on
`The Matrix (1999) \x7bimdb-tt0133093\x7d`. -/
theorem C8_parse_media_round_trip_witness :
    parse_media ("The Matrix" ++ " (" ++ "1999" ++ ") \x7bimdb-tt" ++ "0133093" ++ "\x7d")
      = some (pyStrip "The Matrix", "1999", "0133093") ∧
    parse_media "The Matrix (1999) \x7bimdb-tt0133093\x7d"
      = some ("The Matrix", "1999", "0133093") :=
  ⟨C8_parse_media_round_trip.1 "The Matrix" "1999" "0133093"
      (by decide) (by decide) (by decide) (by decide) (by decide),
   by rfl⟩

end SymlinkManager
